import Mathlib

set_option linter.unusedVariables false

/-!
Shallow embedding of the pystrix AMI and AGI cores
(pystrix/ami/ami.py, pystrix/agi/agi_core.py, pystrix/agi/agi.py).

Python dictionaries are modelled as association lists with first-match
lookup and in-place overwrite on insertion; dictionaries built here never
hold duplicate keys, so first-match lookup agrees with dict semantics.
Python list objects that are shared between several dictionary keys are
modelled through an explicit reference heap, so that an append performed
through one key is visible through every aliasing key.  Strings on the
wire-codec and AGI side are modelled as lists of characters.
-/

/-- First-match lookup in an association list (Python dict access). -/
def alookup {α β : Type} [DecidableEq α] : List (α × β) → α → Option β
  | [], _ => none
  | kv :: rest, k => if kv.1 = k then some kv.2 else alookup rest k

/-- Dict insertion: overwrite the binding in place when the key is
present, append it at the end otherwise. -/
def ainsert {α β : Type} [DecidableEq α] : List (α × β) → α → β → List (α × β)
  | [], k, v => [(k, v)]
  | kv :: rest, k, v => if kv.1 = k then (k, v) :: rest else kv :: ainsert rest k v

/-- Event classes (Python class objects) are identified by numbers; the
process-wide reverse registry maps a class to its friendly name, exactly
as the module-level reverse event registry dict does (its get returns
None for unknown classes, hence the Option). -/
abbrev ClassId := Nat

/-- The generic event class used by the reader when the registry does not
know the name of an incoming event. -/
def genericEventClass : ClassId := 0

def keyAction : String := "Action"

def keyActionId : String := "ActionID"

def keyEvent : String := "Event"

def keyResponse : String := "Response"

/-- A parsed AMI message: its ordered headers, together with the class
tag that the reader mutates from the event registry.  The raw payload
lines play no role in the routing and dispatch logic modelled here; dict
truthiness of a message is the nonemptiness of its headers. -/
structure PEvent where
  cls : ClassId
  headers : List (String × String)
  deriving DecidableEq

/-- Message.action_id property: self.get of the ActionID key. -/
def PEvent.actionId (e : PEvent) : Option String := alookup e.headers keyActionId

/-- Python falsy test for an optional string: None and the empty string
are falsy. -/
def strTruthy : Option String → Bool
  | none => false
  | some s => !(s = "")

/-- Message.name property: the Event header, or the Response header when
the former is absent or falsy (the Python or-chain). -/
def PEvent.name (e : PEvent) : Option String :=
  let ev := alookup e.headers keyEvent
  if strTruthy ev then ev else alookup e.headers keyResponse

/-- A value stored in a synchronous-request events dict or in an
aggregate dict: None, a single event, or a reference to a shared Python
list object living on the heap. -/
inductive DVal where
  | nullv : DVal
  | ev : PEvent → DVal
  | listRef : Nat → DVal
  deriving DecidableEq

/-- Keys of an events dict: the event class object or its registered
name (the name is None for classes missing from the registry, since the
Python code uses the result of registry get directly as a key). -/
inductive EKey where
  | kClass : ClassId → EKey
  | kName : Option String → EKey
  deriving DecidableEq

/-- An events dict together with the heap of shared Python list
objects. -/
structure EStore where
  dict : List (EKey × DVal)
  heap : List (Nat × List PEvent)
  nextRef : Nat
  deriving DecidableEq

def EStore.empty : EStore := ⟨[], [], 0⟩

def EStore.get (st : EStore) (k : EKey) : Option DVal := alookup st.dict k

def EStore.set (st : EStore) (k : EKey) (v : DVal) : EStore :=
  { st with dict := ainsert st.dict k v }

def EStore.heapGet (st : EStore) (r : Nat) : Option (List PEvent) := alookup st.heap r

/-- Append an event to the shared list object r: the Python
list-append performed through whichever dict key reached the object. -/
def EStore.heapAppend (st : EStore) (r : Nat) (e : PEvent) : EStore :=
  { st with heap := st.heap.map (fun p => if p.1 = r then (p.1, p.2 ++ [e]) else p) }

/-- Allocate a fresh, empty Python list object. -/
def EStore.allocList (st : EStore) : EStore × Nat :=
  ({ st with heap := st.heap ++ [(st.nextRef, [])], nextRef := st.nextRef + 1 }, st.nextRef)

/-- One step of the doubled assignment events[c] = events[registry
reverse get c] = v used throughout the Python module. -/
def setBoth (reg : ClassId → Option String) (st : EStore) (c : ClassId) (v : DVal) : EStore :=
  (st.set (EKey.kClass c) v).set (EKey.kName (reg c)) v

/-- The events map pre-allocated by the manager for a synchronous
request: a None slot for every unique and finaliser class, a fresh
shared list for every list class, each entered under both the class
object and its registered name. -/
def initSyncEvents (reg : ClassId → Option String)
    (uniques lists finalisers : List ClassId) : EStore :=
  let st1 := uniques.foldl (fun st c => setBoth reg st c DVal.nullv) EStore.empty
  let st2 := lists.foldl (fun st c =>
    let ar := EStore.allocList st
    setBoth reg ar.1 c (DVal.listRef ar.2)) st1
  finalisers.foldl (fun st c => setBoth reg st c DVal.nullv) st2

/-- The value tracked for a synchronous outstanding request: the events
map and the pending finaliser classes (a Python set, built from a
duplicate-free tuple, so a list with erase models discard). -/
structure SyncStatus where
  events : EStore
  pending : List ClassId
  deriving DecidableEq

/-- The manager's outstanding-requests dict: ActionID (None is a legal
key) to a synchronous status, or None for an asynchronous request. -/
abbrev OutstandingMap := List (Option String × Option SyncStatus)

/-- Manager method processing an outstanding-request event: when the
event's ActionID is tracked with a synchronous (truthy) status, the
event's class is discarded from the pending finalisers, and the event is
appended to the shared list slot for its class when that slot is a
list, otherwise stored under both the class and its registered name.
The Bool result reports whether the event was bound to an action. -/
def processOutstandingRequestEvent (reg : ClassId → Option String)
    (out : OutstandingMap) (e : PEvent) : OutstandingMap × Bool :=
  match alookup out e.actionId with
  | some (some st) =>
      let pending2 := st.pending.erase e.cls
      let events2 :=
        match st.events.get (EKey.kClass e.cls) with
        | some (DVal.listRef r) => st.events.heapAppend r e
        | _ => setBoth reg st.events e.cls (DVal.ev e)
      (ainsert out e.actionId (some ⟨events2, pending2⟩), true)
  | _ => (out, false)

/-- The aggregate object: its own ActionID, the declared member and
finaliser classes, the pending finalisers, and the dict of collected
events. -/
structure PAggregate where
  actionId : Option String
  members : List ClassId
  finalisers : List ClassId
  pending : List ClassId
  store : EStore
  deriving DecidableEq

/-- Aggregate construction: pending is the set of finalisers; every
member class receives a fresh shared list under both of its keys, every
finaliser class a None slot under both of its keys. -/
def mkAggregate (reg : ClassId → Option String) (members finalisers : List ClassId)
    (aid : Option String) : PAggregate :=
  let st1 := members.foldl (fun st c =>
    let ar := EStore.allocList st
    setBoth reg ar.1 c (DVal.listRef ar.2)) EStore.empty
  let st2 := finalisers.foldl (fun st c => setBoth reg st c DVal.nullv) st1
  ⟨aid, members, finalisers, finalisers, st2⟩

/-- The aggregate's merge step: when the ActionIDs match, append the
event to the shared list held under its class key (for aggregates built
by mkAggregate a declared member class always holds a list, so the
fallback arm is unreachable); the Bool reports whether the event was
added. -/
def PAggregate.aggregateEvent (a : PAggregate) (e : PEvent) : PAggregate × Bool :=
  if a.actionId = e.actionId then
    match a.store.get (EKey.kClass e.cls) with
    | some (DVal.listRef r) => ({ a with store := a.store.heapAppend r e }, true)
    | _ => (a, true)
  else (a, false)

/-- The aggregate's finalise step: when the ActionIDs match, store the
finaliser under both of its keys, discard its class from the pending
set, and report whether every declared finaliser has been received. -/
def PAggregate.finalise (a : PAggregate) (reg : ClassId → Option String) (e : PEvent) :
    PAggregate × Bool :=
  if a.actionId = e.actionId then
    let a2 : PAggregate :=
      { a with store := setBoth reg a.store e.cls (DVal.ev e),
               pending := a.pending.erase e.cls }
    (a2, a2.pending.isEmpty)
  else (a, false)

/-- Aggregate.evaluate_event: None when the event's class is neither a
member nor a finaliser, False after the (ActionID-guarded) merge of a
member, and the outcome of finalisation for a finaliser class. -/
def PAggregate.evaluateEvent (reg : ClassId → Option String) (a : PAggregate) (e : PEvent) :
    Option Bool × PAggregate :=
  if e.cls ∈ a.members then
    let r := a.aggregateEvent e
    (some false, r.1)
  else if e.cls ∈ a.finalisers then
    let r := a.finalise reg e
    (some r.2, r.1)
  else (none, a)

/-- Kinds of callback definitions: event-reference, universal, and
orphaned-response. -/
inductive CbKind where
  | ref : CbKind
  | univ : CbKind
  | orphaned : CbKind
  deriving DecidableEq

/-- A callback-definition triple: kind, match criterion, and the
function, identified by a number since Python compares plain functions
by identity. -/
structure CbDef where
  kind : CbKind
  crit : Option String
  fn : Nat
  deriving DecidableEq

/-- Identifier accepted by register_callback: an event-name string, an
event class, or the None sentinel for orphan handlers. -/
inductive CbEventKey where
  | str : String → CbEventKey
  | cls : ClassId → CbEventKey
  | nullKey : CbEventKey

/-- The manager's compilation of a callback definition; none models the
ValueError raised on a class missing from the registry. -/
def compileCallbackDefinition (reg : ClassId → Option String) (ek : CbEventKey) (fn : Nat) :
    Option CbDef :=
  match ek with
  | CbEventKey.str s =>
      if s = "" then some ⟨CbKind.univ, none, fn⟩ else some ⟨CbKind.ref, some s, fn⟩
  | CbEventKey.cls c =>
      match reg c with
      | some n => some ⟨CbKind.ref, some n, fn⟩
      | none => none
  | CbEventKey.nullKey => some ⟨CbKind.orphaned, none, fn⟩

/-- Removal of the first list entry equal to the given definition: the
internal unregister helper. -/
def removeFirstCb : List CbDef → CbDef → List CbDef
  | [], _ => []
  | c :: cs, d => if c = d then cs else c :: removeFirstCb cs d

/-- register_callback: unregister an equal definition first, then append
the new one at the end of the ordered list. -/
def registerCallback (cbs : List CbDef) (d : CbDef) : List CbDef :=
  removeFirstCb cbs d ++ [d]

/-- unregister_callback via the internal helper. -/
def unregisterCallback (cbs : List CbDef) (d : CbDef) : List CbDef :=
  removeFirstCb cbs d

/-- The callbacks the dispatcher gathers for an event: exact-name
references plus universal handlers, in registration order, as function
identifiers. -/
def matchingCallbacks (cbs : List CbDef) (ename : Option String) : List Nat :=
  (cbs.filter (fun d =>
    (d.kind == CbKind.ref && ename == d.crit) || d.kind == CbKind.univ)).map CbDef.fn

/-- The result of one queue-drain step of the event dispatcher: the
updated outstanding map and aggregate list, the aggregates newly moved
to the completed deque, and the function identifiers of the callbacks
invoked, in invocation order. -/
structure DispatchOut where
  out : OutstandingMap
  aggs : List (Nat × PAggregate)
  completed : List PAggregate
  fired : List Nat
  deriving DecidableEq

/-- The dispatcher's for-loop over pending (deadline, aggregate) pairs:
the first aggregate whose evaluation is not None consumes the event and
the loop breaks; a True result moves that aggregate off the list and
into the completed deque, a False result updates it in place. -/
def aggLoop (reg : ClassId → Option String) :
    List (Nat × PAggregate) → PEvent → List (Nat × PAggregate) × List PAggregate
  | [], _ => ([], [])
  | (dl, a) :: rest, e =>
      match PAggregate.evaluateEvent reg a e with
      | (none, _) =>
          let r := aggLoop reg rest e
          ((dl, a) :: r.1, r.2)
      | (some true, a2) => (rest, [a2])
      | (some false, a2) => ((dl, a2) :: rest, [])

/-- The queue-drain branch of the dispatcher for one drained event: bind
it to a synchronous request and stop (no callbacks run), otherwise offer
it to the pending aggregates, and then, whether or not an aggregate
consumed it, gather and run the matching callbacks for the (truthy)
event. -/
def dispatchEvent (reg : ClassId → Option String) (cbs : List CbDef)
    (out : OutstandingMap) (aggs : List (Nat × PAggregate)) (e : PEvent) : DispatchOut :=
  let pr := processOutstandingRequestEvent reg out e
  if pr.2 then ⟨pr.1, aggs, [], []⟩
  else
    let al := aggLoop reg aggs e
    let fired := if e.headers.isEmpty then [] else matchingCallbacks cbs e.name
    ⟨pr.1, al.1, al.2, fired⟩

/-- State owned by the message-reader thread: the served-requests table
(ActionID to response and expiry deadline), the events queue, and the
orphan-response queue. -/
structure ReaderState where
  served : List (String × (PEvent × Nat))
  eventQueue : List PEvent
  responseQueue : List PEvent
  deriving DecidableEq

/-- The reader's reaping step: responses whose deadline has passed move
to the orphan-response queue and leave the served-requests table. -/
def cleanOrphanedResponses (now : Nat) (st : ReaderState) : ReaderState :=
  let expired := st.served.filter (fun p => decide (p.2.2 ≤ now))
  { st with
      served := st.served.filter (fun p => !decide (p.2.2 ≤ now)),
      responseQueue := st.responseQueue ++ expired.map (fun p => p.2.1) }

/-- One iteration of the reader's run loop for a successfully read
message: an event has its class mutated from the registry and joins the
events queue; a response carrying an ActionID is stored in the
served-requests table with deadline now plus the orphaned-response
timeout unless an entry already exists for that token, in which case it
joins the orphan-response queue, as does a response with no ActionID.
Expired entries are reaped before the insert. -/
def routeMessage (regFwd : String → Option ClassId) (orphanTimeout : Nat)
    (now : Nat) (st : ReaderState) (m : PEvent) : ReaderState :=
  if (alookup m.headers keyEvent).isSome then
    let cls2 :=
      match m.name with
      | some n =>
          match regFwd n with
          | some c => c
          | none => genericEventClass
      | none => genericEventClass
    { st with eventQueue := st.eventQueue ++ [{ m with cls := cls2 }] }
  else
    match m.actionId with
    | some aid =>
        let st2 := cleanOrphanedResponses now st
        if (alookup st2.served aid).isSome then
          { st2 with responseQueue := st2.responseQueue ++ [m] }
        else
          { st2 with served := st2.served ++ [(aid, (m, now + orphanTimeout))] }
    | none => { st with responseQueue := st.responseQueue ++ [m] }

/-- Manager counter step for ActionIDs: increment, wrapping to 1 once
the value would exceed the 32-bit ceiling. -/
def getActionId (n : Nat) : Nat :=
  if n + 1 > 0xFFFFFFFF then 1 else n + 1

/-- Hexadecimal digits of a positive number, most significant first
(lower-case, as Python x-formatting produces). -/
def natToHexAux (n : Nat) : List Char :=
  if h : n = 0 then [] else natToHexAux (n / 16) ++ [Nat.digitChar (n % 16)]
termination_by n
decreasing_by exact Nat.div_lt_self (Nat.pos_of_ne_zero h) (by norm_num)

/-- Python 08x formatting: hexadecimal, zero-padded to a minimum width
of eight characters. -/
def hex8 (n : Nat) : List Char :=
  let ds := if n = 0 then ['0'] else natToHexAux n
  List.replicate (8 - ds.length) '0' ++ ds

/-- One of the five random draws performed in the manager constructor:
a digit, an upper-case letter, or a lower-case letter. -/
inductive TokenDraw where
  | digitDraw : Nat → TokenDraw
  | upperDraw : Nat → TokenDraw
  | lowerDraw : Nat → TokenDraw

/-- The character produced by one draw (chr of a code point drawn from
the digit, upper-case, or lower-case range). -/
def drawChar : TokenDraw → Char
  | TokenDraw.digitDraw d => Char.ofNat (48 + d % 10)
  | TokenDraw.upperDraw d => Char.ofNat (65 + d % 26)
  | TokenDraw.lowerDraw d => Char.ofNat (97 + d % 26)

/-- The random token built once, in the manager constructor, from five
draws; it never changes afterwards. -/
def mkRandomToken (f : Fin 5 → TokenDraw) : List Char :=
  (List.finRange 5).map (fun i => drawChar (f i))

/-- Manager generation of a host-qualified ActionID: hostname, the
process-lifetime random token, and the zero-padded hexadecimal counter,
separated by dashes; returns the formatted token and the new counter. -/
def getHostActionId (hostname randomToken : List Char) (counter : Nat) : List Char × Nat :=
  let n2 := getActionId counter
  (hostname ++ ['-'] ++ randomToken ++ ['-'] ++ hex8 n2, n2)

/-- Strings on the wire and in the AGI engine are modelled as lists of
characters. -/
abbrev Chars := List Char

def eolChars : Chars := ['\r', '\n']

def eolFake1 : Chars := ['\n', '\r', '\n']

def eolFake2 : Chars := ['\r', '\r', '\n']

def eocChars : Chars := ['-', '-', 'E', 'N', 'D', ' ', 'C', 'O', 'M', 'M', 'A', 'N', 'D', '-', '-']

def actionKeyChars : Chars := ['A', 'c', 't', 'i', 'o', 'n']

def actionIdKeyChars : Chars := ['A', 'c', 't', 'i', 'o', 'n', 'I', 'D']

def respColonChars : Chars := ['R', 'e', 's', 'p', 'o', 'n', 's', 'e', ':']

def followsChars : Chars := ['F', 'o', 'l', 'l', 'o', 'w', 's']

def resultKeyChars : Chars := ['r', 'e', 's', 'u', 'l', 't']

def hangupChars : Chars := ['h', 'a', 'n', 'g', 'u', 'p']

/-- The whitespace characters stripped by the Python strip method and
matched by the whitespace regex class. -/
def isPyWs (c : Char) : Bool :=
  c = ' ' || c = '\t' || c = '\n' || c = '\r' || c = '\x0b' || c = '\x0c'

/-- Python strip: drop whitespace from both ends. -/
def pyStrip (cs : Chars) : Chars :=
  ((cs.dropWhile isPyWs).reverse.dropWhile isPyWs).reverse

/-- Python split on the first colon: the part before it and the part
after it (a colon-free string comes back whole on the left, matching
the single part Python would return). -/
def splitColon : Chars → Chars × Chars
  | [] => ([], [])
  | c :: cs =>
      if c = ':' then ([], cs)
      else
        let r := splitColon cs
        (c :: r.1, r.2)

def startsWithChars (l s : Chars) : Bool := decide (l.take s.length = s)

def endsWithChars (l s : Chars) : Bool := decide (l.reverse.take s.length = s.reverse)

/-- A header value held in a request dict: a plain value or a list-typed
value emitted one line per element. -/
inductive HVal where
  | one : Chars → HVal
  | many : List Chars → HVal
  deriving DecidableEq

/-- The contents of a request dict, split by the two specially treated
keys: the mandatory Action value, the remaining headers (whose keys are
never Action or ActionID, which the emission loop skips), and the
stored ActionID entry when one is present. -/
structure WireRequest where
  action : Chars
  extraHeaders : List (Chars × HVal)
  storedAid : Option Chars
  deriving DecidableEq

/-- Emission of the ordinary headers: a list-typed value produces one
line per element under the same name. -/
def expandHeaders (hs : List (Chars × HVal)) : List (Chars × Chars) :=
  (hs.map (fun kv =>
    match kv.2 with
    | HVal.one v => [(kv.1, v)]
    | HVal.many vs => vs.map (fun v => (kv.1, v)))).flatten

/-- Truthiness of the optional caller-supplied ActionID as tested by
build_request (None and the empty string are falsy). -/
def aidTruthy : Option Chars → Bool
  | none => false
  | some a => !a.isEmpty

/-- Request.build_request: the Action line first, then the remaining
headers (keyword extras appended) with list values expanded, then the
ActionID resolution: with a truthy caller token the branch is entered
but an ActionID already stored in the request overrides the token; with
a falsy caller token an ActionID is generated only when the request
stores none, and nothing is emitted (the falsy token being returned
unchanged) when the request stores one.  Returns the emitted header
lines in order and the ActionID reported to the caller. -/
def buildRequest (r : WireRequest) (aid : Option Chars) (gen : Chars)
    (kw : List (Chars × HVal)) : List (Chars × Chars) × Option Chars :=
  let items := (actionKeyChars, r.action) :: expandHeaders (r.extraHeaders ++ kw)
  if aidTruthy aid || r.storedAid.isNone then
    let finalAid :=
      if !aidTruthy aid then gen
      else
        match r.storedAid with
        | some y => y
        | none => aid.getD []
    (items ++ [(actionIdKeyChars, finalAid)], some finalAid)
  else (items, aid)

/-- One emitted wire line: name, colon, space, value, CRLF. -/
def headerLine (k v : Chars) : Chars := k ++ [':', ' '] ++ v ++ eolChars

/-- The join performed by build_request: every line CRLF-terminated, a
final CRLF closing the record. -/
def serialiseItems (items : List (Chars × Chars)) : Chars :=
  (items.map (fun kv => headerLine kv.1 kv.2)).flatten ++ eolChars

/-- Helper for the readline model: accumulate characters of the current
line (in reverse) and emit a line at every newline. -/
def splitLinesAux : Chars → Chars → List Chars
  | [], acc => if acc.isEmpty then [] else [acc.reverse]
  | c :: cs, acc =>
      if c = '\n' then (acc.reverse ++ ['\n']) :: splitLinesAux cs []
      else splitLinesAux cs (c :: acc)

/-- The socket readline model: split the byte stream after every
newline, a trailing fragment coming back without one. -/
def splitLines (cs : Chars) : List Chars := splitLinesAux cs []

/-- The Follows indicator regex, anchored at the start of the line: the
literal Response-colon, optional whitespace, the literal Follows, then
only whitespace up to the end of the line. -/
def isFollowsLine (l : Chars) : Bool :=
  if startsWithChars l respColonChars then
    let r1 := (l.drop respColonChars.length).dropWhile isPyWs
    if startsWithChars r1 followsChars then
      (r1.drop followsChars.length).all isPyWs
    else false
  else false

/-- read_message over the list of lines pulled from the socket: a bare
CRLF line ends a (nonempty) message unless the Follows indicator opened
a payload block, which instead ends at a line starting with the
END-COMMAND marker; none models a reader left blocking on the socket. -/
def readMsg : List Chars → List Chars → Bool → Option (List Chars)
  | [], _, _ => none
  | l :: rest, acc, wait =>
      if !wait && decide (l = eolChars) then
        if acc.isEmpty then readMsg rest acc wait else some acc
      else if wait && startsWithChars l eocChars then some acc
      else readMsg rest (acc ++ [l]) (wait || isFollowsLine l)

/-- Message parse over the collected lines: header lines are split at
the first colon with both sides stripped and inserted into the headers
dict; the first line that ends with a fake terminator, lacks the CRLF
ending, or has no colon turns itself and every following line into
stripped data lines. -/
def parseMsg : List Chars → List (Chars × Chars) → List (Chars × Chars) × List Chars
  | [], acc => (acc, [])
  | l :: rest, acc =>
      if endsWithChars l eolFake1 || endsWithChars l eolFake2 ||
         !endsWithChars l eolChars || !l.contains (':') then
        (acc, (l :: rest).map pyStrip)
      else
        let kv := splitColon l
        parseMsg rest (ainsert acc (pyStrip kv.1) (pyStrip kv.2))

/-- Reading one message out of a serialised wire record and parsing it:
the composition the round-trip law is about. -/
def parseWire (wire : Chars) : Option (List (Chars × Chars) × List Chars) :=
  (readMsg (splitLines wire) [] false).map (fun ls => parseMsg ls [])

/-- The dict contents of a request value: the Action entry, the ordinary
headers, and the stored ActionID entry when present. -/
def requestDict (r : WireRequest) : List (Chars × HVal) :=
  (actionKeyChars, HVal.one r.action) :: r.extraHeaders ++
    (match r.storedAid with
     | some y => [(actionIdKeyChars, HVal.one y)]
     | none => [])

/-- A value-data pair of the AGI response dict: the (possibly empty)
value group and the (possibly empty) parenthesised data group. -/
structure VData where
  value : Chars
  data : Chars
  deriving DecidableEq

/-- A word character of the key group in the AGI key-value regex. -/
def isWordChar (c : Char) : Bool := c.isAlphanum || c = '_'

/-- The numeric value of a run of decimal digits (Python int). -/
def digitsToNat (ds : Chars) : Nat := ds.foldl (fun n c => n * 10 + (c.toNat - 48)) 0

/-- The AGI response-code regex: one or more leading digits, optional
whitespace, then at least one further character, with the greedy groups
backtracking exactly as the Python engine does on a stripped line (an
all-digit line of length at least two cedes its last digit to the
remainder group, a digits-then-whitespace line cedes its last
whitespace character).  Returns the code and the remainder group, or
none when the line cannot match. -/
def parseCodeLine (l : Chars) : Option (Nat × Chars) :=
  let ds := l.takeWhile Char.isDigit
  let tl := l.drop ds.length
  if ds.isEmpty then none
  else if tl.isEmpty then
    if 2 ≤ ds.length then some (digitsToNat ds.dropLast, ds.drop (ds.length - 1))
    else none
  else
    let w := tl.takeWhile isPyWs
    if w.length = tl.length then some (digitsToNat ds, tl.drop (tl.length - 1))
    else some (digitsToNat ds, tl.drop w.length)

/-- The optional parenthesised data group of the key-value regex: at
least one whitespace character, an opening parenthesis, then the greedy
dot-star running to the last closing parenthesis of the line.  Returns
the data group and the unconsumed suffix. -/
def kvDataGroup (rest : Chars) : Option (Chars × Chars) :=
  let w := rest.takeWhile isPyWs
  if w.isEmpty then none
  else
    match rest.drop w.length with
    | '(' :: body =>
        if body.contains (')') then
          let cut := body.length - 1 - body.reverse.findIdx (fun c => c == ')')
          some (body.take cut, body.drop (cut + 1))
        else none
    | _ => none

/-- One match of the key-value regex anchored at the head of the
string: a word-character key directly followed by the equals sign (no
shorter key can match, the equals sign not being a word character), a
greedy run of non-whitespace as the optional value group, then the
optional data group.  Returns the three groups (empty for an absent
group, as findall reports them) and the unconsumed suffix. -/
def kvMatchAt (l : Chars) : Option ((Chars × Chars × Chars) × Chars) :=
  let key := l.takeWhile isWordChar
  if key.isEmpty then none
  else
    match l.drop key.length with
    | '=' :: rest =>
        let v := rest.takeWhile (fun c => !isPyWs c)
        let rest2 := rest.drop v.length
        match kvDataGroup rest2 with
        | some (d, rest3) => some ((key, v, d), rest3)
        | none => some ((key, v, []), rest2)
    | _ => none

/-- The findall scan: try a match at every position, resuming after the
consumed text of each match.  The fuel equals the remaining length; a
successful match always consumes at least the key and the equals sign,
so the fuel never runs out before the string does. -/
def findKVsAux : Nat → Chars → List (Chars × Chars × Chars)
  | 0, _ => []
  | _ + 1, [] => []
  | fuel + 1, c :: cs =>
      match kvMatchAt (c :: cs) with
      | some (g, rest) => g :: findKVsAux fuel rest
      | none => findKVsAux fuel cs

def findKVs (l : Chars) : List (Chars × Chars × Chars) := findKVsAux l.length l

/-- The AGI response dict built from the matches: value-or-empty paired
with the data group, inserted under the key with dict overwrite. -/
def buildKvDict (ts : List (Chars × Chars × Chars)) : List (Chars × VData) :=
  ts.foldl (fun d t => ainsert d t.1 ⟨t.2.1, t.2.2⟩) []

/-- The outcomes of the AGI result reader: a parsed 200 response, the
bare None return of the code-0 branch, and the typed errors. -/
inductive GIResult where
  | respNone : GIResult
  | resp : List (Chars × VData) → Nat → Chars → GIResult
  | errNoResult : List (Chars × VData) → GIResult
  | errResultHangup : List (Chars × VData) → GIResult
  | errInvalidCommand : GIResult
  | errDeadChannel : GIResult
  | errUsage : List Chars → GIResult
  | errUnknown : Nat → Chars → GIResult
  | errPipeHangup : GIResult
  | errSighupHangup : GIResult
  deriving DecidableEq

/-- The code-520 loop: keep reading lines until one starts with 520,
returning every collected line as the usage diagnostic; running out of
input is a broken pipe. -/
def collect520 : List Chars → List Chars → GIResult
  | [], _ => GIResult.errPipeHangup
  | l :: rest, acc =>
      if startsWithChars l ['5', '2', '0'] then GIResult.errUsage (acc ++ [l])
      else collect520 rest (acc ++ [l])

/-- The AGI result reader over a stream of already stripped lines: the
code defaults to 0 when the code regex cannot match; 200 parses the
key-value pairs, requires a result key, and raises the typed result
hangup when hangup checking is on and the result's data group is the
hangup literal; 0 does nothing and returns None; 510, 511, and 520 map
to their typed errors; anything else is the unknown error.  An empty
stream is a broken pipe. -/
def getResult (lines : List Chars) (checkHangup : Bool) : GIResult :=
  match lines with
  | [] => GIResult.errPipeHangup
  | l :: rest =>
      let pc := parseCodeLine l
      let code := match pc with | some p => p.1 | none => 0
      let raw := match pc with | some p => p.2 | none => []
      if code = 200 then
        let resp := buildKvDict (findKVs raw)
        match alookup resp resultKeyChars with
        | none => GIResult.errNoResult resp
        | some rv =>
            if checkHangup && decide (rv.data = hangupChars) then GIResult.errResultHangup resp
            else GIResult.resp resp 200 raw
      else if code = 0 then GIResult.respNone
      else if code = 510 then GIResult.errInvalidCommand
      else if code = 511 then GIResult.errDeadChannel
      else if code = 520 then collect520 rest [l]
      else GIResult.errUnknown code raw

/-- AGI execute for a script-backed session: the hangup-check hook runs
first and raises the typed SIGHUP hangup when the signal flag was set
by the asynchronous handler; otherwise the command is sent and the
response read (the base action's process_response returns the result
verbatim). -/
def executeAGI (gotSighup : Bool) (lines : List Chars) (checkHangup : Bool) : GIResult :=
  if gotSighup then GIResult.errSighupHangup
  else getResult lines checkHangup

/-- Conditions on a header name under which one emitted line parses
back to it: no newline (so the readline model keeps the line whole), no
colon (so the first colon of the line is the emitted separator), and no
surrounding whitespace (so stripping returns it unchanged). -/
abbrev goodKey (k : Chars) : Prop :=
  '\n' ∉ k ∧ ':' ∉ k ∧ k.dropWhile isPyWs = k ∧ k.reverse.dropWhile isPyWs = k.reverse

/-- Conditions on a header value under which one emitted line parses
back to it: no newline and no carriage return (the latter would fake a
payload terminator at the end of the line), and no surrounding
whitespace. -/
abbrev goodVal (v : Chars) : Prop :=
  '\n' ∉ v ∧ '\r' ∉ v ∧ v.dropWhile isPyWs = v ∧ v.reverse.dropWhile isPyWs = v.reverse

/-! Helper lemmas about the dict and heap model. -/

theorem alookup_ainsert {α β : Type} [DecidableEq α] (l : List (α × β)) (k k' : α) (v : β) :
    alookup (ainsert l k v) k' = if k = k' then some v else alookup l k' := by
  induction l with
  | nil => simp [ainsert, alookup]
  | cons kv rest ih =>
      simp only [ainsert]
      by_cases h : kv.1 = k
      · simp only [if_pos h, alookup]
        by_cases h' : k = k'
        · simp [h']
        · have hk' : ¬kv.1 = k' := by rw [h]; exact h'
          simp [h', hk']
      · simp only [if_neg h, alookup]
        by_cases h' : kv.1 = k'
        · have hne : ¬k = k' := fun hc => h (by rw [hc, h'])
          simp [h', hne]
        · simp [h', ih]

theorem ainsert_fresh {α β : Type} [DecidableEq α] (l : List (α × β)) (k : α) (v : β)
    (h : ∀ kv ∈ l, kv.1 ≠ k) : ainsert l k v = l ++ [(k, v)] := by
  induction l with
  | nil => simp [ainsert]
  | cons kv rest ih =>
      have hk : kv.1 ≠ k := h kv (by simp)
      simp [ainsert, hk]
      exact ih (fun kv' hkv' => h kv' (by simp [hkv']))

theorem alookup_map_update {β : Type} (l : List (Nat × β)) (r r' : Nat) (f : β → β) :
    alookup (l.map (fun p => if p.1 = r then (p.1, f p.2) else p)) r' =
      if r' = r then (alookup l r').map f else alookup l r' := by
  induction l with
  | nil => simp [alookup]
  | cons kv rest ih =>
      by_cases h : kv.1 = r
      · by_cases h' : kv.1 = r'
        · simp [alookup, h, h', ← h'.symm.trans h]
        · have h1 : r' ≠ r := fun hc => h' (h.trans hc.symm)
          have h2 : ¬r = r' := fun hc => h1 hc.symm
          simp [alookup, h, h', h1, h2, ih]
      · by_cases h' : kv.1 = r'
        · have h1 : ¬r' = r := fun hc => h (h'.trans hc)
          simp [alookup, h, h', h1]
        · simp [alookup, h, h', ih]

theorem heapGet_heapAppend (st : EStore) (r r' : Nat) (e : PEvent) :
    (st.heapAppend r e).heapGet r' =
      if r' = r then (st.heapGet r').map (fun l => l ++ [e]) else st.heapGet r' := by
  simp only [EStore.heapAppend, EStore.heapGet]
  exact alookup_map_update st.heap r r' (fun l => l ++ [e])

theorem dict_heapAppend (st : EStore) (r : Nat) (e : PEvent) :
    (st.heapAppend r e).dict = st.dict := rfl

theorem get_set (st : EStore) (k k' : EKey) (v : DVal) :
    (st.set k v).get k' = if k = k' then some v else st.get k' := by
  simp [EStore.set, EStore.get, alookup_ainsert]

theorem get_setBoth_kClass (reg : ClassId → Option String) (st : EStore) (c c' : ClassId)
    (v : DVal) :
    (setBoth reg st c v).get (EKey.kClass c') = if c = c' then some v else st.get (EKey.kClass c') := by
  by_cases h : c = c' <;> simp [setBoth, get_set, h]

theorem get_setBoth_kName (reg : ClassId → Option String) (st : EStore) (c : ClassId)
    (s : Option String) (v : DVal) :
    (setBoth reg st c v).get (EKey.kName s) =
      if reg c = s then some v else st.get (EKey.kName s) := by
  by_cases h : reg c = s <;> simp [setBoth, get_set, h]

theorem heapGet_setBoth (reg : ClassId → Option String) (st : EStore) (c : ClassId)
    (v : DVal) (r : Nat) : (setBoth reg st c v).heapGet r = st.heapGet r := rfl

/-! C1: message-reader routing. -/

/-- C1 counterexample: with no request outstanding anywhere (the
outstanding-requests table plays no part in the reader), a response
carrying the fresh token X is stored in the served-requests table with
deadline now plus the orphaned-response timeout, and the
orphan-response queue stays empty — the claim instead demands that a
response whose token matches no outstanding request go to the orphan
queue. -/
theorem c1_reader_routing_counterexample :
    (routeMessage (fun _ => none) 5 100 ⟨[], [], []⟩
        ⟨0, [(keyResponse, "Success"), (keyActionId, "X")]⟩).served =
      [("X", (⟨0, [(keyResponse, "Success"), (keyActionId, "X")]⟩, 105))] ∧
    (routeMessage (fun _ => none) 5 100 ⟨[], [], []⟩
        ⟨0, [(keyResponse, "Success"), (keyActionId, "X")]⟩).responseQueue = [] := by
  constructor <;> rfl

/-- C1 amended: the reader stores a non-event message carrying an
ActionID in the served-requests table (keyed by the token, expiring at
now plus the orphaned-response timeout) exactly when, after reaping
expired entries, no entry already exists for that token; a response
whose token already has a live entry, or that carries no ActionID at
all, is enqueued into the orphan-response queue.  Outstanding requests
are never consulted. -/
theorem c1_reader_routing_amended (regFwd : String → Option ClassId) (T now : Nat)
    (st : ReaderState) (m : PEvent) (hev : alookup m.headers keyEvent = none) :
    (∀ aid, m.actionId = some aid →
      ((alookup (cleanOrphanedResponses now st).served aid = none →
          routeMessage regFwd T now st m =
            { cleanOrphanedResponses now st with
                served := (cleanOrphanedResponses now st).served ++ [(aid, (m, now + T))] }) ∧
       (∀ entry, alookup (cleanOrphanedResponses now st).served aid = some entry →
          routeMessage regFwd T now st m =
            { cleanOrphanedResponses now st with
                responseQueue := (cleanOrphanedResponses now st).responseQueue ++ [m] }))) ∧
    (m.actionId = none →
      routeMessage regFwd T now st m = { st with responseQueue := st.responseQueue ++ [m] }) := by
  constructor
  · intro aid haid
    constructor
    · intro hmiss
      simp [routeMessage, hev, haid, hmiss]
    · intro entry hhit
      simp [routeMessage, hev, haid, hhit]
  · intro haid
    simp [routeMessage, hev, haid]

/-- C1 amended, witnessed at a concrete response and a concrete reader
state holding a live entry for the token. -/
theorem c1_reader_routing_amended_witness :
    routeMessage (fun _ => none) 5 100
        ⟨[("X", (⟨0, [(keyResponse, "Pong")]⟩, 104))], [], []⟩
        ⟨0, [(keyResponse, "Success"), (keyActionId, "X")]⟩ =
      { cleanOrphanedResponses 100 ⟨[("X", (⟨0, [(keyResponse, "Pong")]⟩, 104))], [], []⟩ with
          responseQueue :=
            (cleanOrphanedResponses 100
                ⟨[("X", (⟨0, [(keyResponse, "Pong")]⟩, 104))], [], []⟩).responseQueue ++
              [⟨0, [(keyResponse, "Success"), (keyActionId, "X")]⟩] } :=
  ((c1_reader_routing_amended (fun _ => none) 5 100
      ⟨[("X", (⟨0, [(keyResponse, "Pong")]⟩, 104))], [], []⟩
      ⟨0, [(keyResponse, "Success"), (keyActionId, "X")]⟩ (by decide)).1
    "X" (by decide)).2 (⟨0, [(keyResponse, "Pong")]⟩, 104) (by decide)

/-! C5: the caller-supplied correlation token. -/

/-- C5 failing input evaluated: a request whose dict already stores the
ActionID Y, sent with the truthy caller-supplied token X, transmits the
header ActionID Y and reports Y back — the caller's token X is
discarded, contradicting the claim (and the method's own docstring)
that a caller-supplied token is used verbatim. -/
theorem c5_caller_token_overridden :
    buildRequest ⟨['P', 'i', 'n', 'g'], [], some ['Y']⟩ (some ['X']) ['g'] [] =
      ([(actionKeyChars, ['P', 'i', 'n', 'g']), (actionIdKeyChars, ['Y'])], some ['Y']) ∧
    (['Y'] : Chars) ≠ ['X'] := by
  constructor
  · rfl
  · decide

/-! C6: ActionID counter arithmetic and token format. -/

theorem natToHexAux_length_le (k : Nat) : ∀ n : Nat, n < 16 ^ k → (natToHexAux n).length ≤ k := by
  induction k with
  | zero =>
      intro n hn
      have : n = 0 := by omega
      rw [this, natToHexAux]
      simp
  | succ k ih =>
      intro n hn
      by_cases h : n = 0
      · rw [h, natToHexAux]; simp
      · rw [natToHexAux]
        simp only [h, dite_false, List.length_append, List.length_cons, List.length_nil]
        have hdiv : n / 16 < 16 ^ k := by
          have h16 : 0 < 16 := by norm_num
          rw [Nat.div_lt_iff_lt_mul h16]
          calc n < 16 ^ (k + 1) := hn
            _ = 16 ^ k * 16 := by ring
        have := ih (n / 16) hdiv
        omega

/-- C6: each counter step returns the previous value plus one except at
the 32-bit ceiling, where it wraps to exactly 1, never reaching 0; and
the emitted token is the hostname, the process-lifetime 5-character
random token, and the 8-character zero-padded hexadecimal counter,
dash-separated. -/
theorem c6_action_id_counter (host rand : List Char) (f : Fin 5 → TokenDraw) (n : Nat)
    (h : n ≤ 0xFFFFFFFF) :
    (getHostActionId host rand n).2 = (if n = 0xFFFFFFFF then 1 else n + 1) ∧
    (getHostActionId host rand n).2 ≠ 0 ∧
    1 ≤ (getHostActionId host rand n).2 ∧
    (getHostActionId host rand n).2 ≤ 0xFFFFFFFF ∧
    (getHostActionId host rand n).1 =
      host ++ ['-'] ++ rand ++ ['-'] ++ hex8 (getHostActionId host rand n).2 ∧
    (hex8 (getHostActionId host rand n).2).length = 8 ∧
    (mkRandomToken f).length = 5 := by
  have hstep : getActionId n = if n = 0xFFFFFFFF then 1 else n + 1 := by
    by_cases hn : n = 0xFFFFFFFF <;> simp [getActionId, hn] <;> omega
  have hrange : 1 ≤ getActionId n ∧ getActionId n ≤ 0xFFFFFFFF := by
    rw [hstep]
    by_cases hn : n = 0xFFFFFFFF <;> simp [hn] <;> omega
  have hex8len : ∀ m : Nat, m ≤ 0xFFFFFFFF → (hex8 m).length = 8 := by
    intro m hm
    have hlt : m < 16 ^ 8 := by norm_num at hm ⊢; omega
    have hle := natToHexAux_length_le 8 m hlt
    by_cases h0 : m = 0
    · simp [hex8, h0]
    · simp only [hex8, h0, if_false, List.length_append, List.length_replicate]
      omega
  refine ⟨?_, ?_, ?_, ?_, ?_, ?_, ?_⟩
  · simp [getHostActionId, hstep]
  · simp only [getHostActionId]
    omega
  · simp only [getHostActionId]
    exact hrange.1
  · simp only [getHostActionId]
    exact hrange.2
  · rfl
  · simp only [getHostActionId]
    exact hex8len _ hrange.2
  · simp [mkRandomToken]

/-- C6 witnessed at counter value zero. -/
theorem c6_action_id_counter_witness :
    (getHostActionId ['h'] ['a', 'b', 'c', 'd', 'e'] 0).2 ≠ 0 :=
  (c6_action_id_counter ['h'] ['a', 'b', 'c', 'd', 'e']
    (fun _ => TokenDraw.digitDraw 0) 0 (by norm_num)).2.1

/-! C8: callback-registry algebra. -/

theorem removeFirstCb_not_mem (cbs : List CbDef) (d : CbDef) (h : d ∉ cbs) :
    removeFirstCb cbs d = cbs := by
  induction cbs with
  | nil => rfl
  | cons c cs ih =>
      have hne : c ≠ d := fun hc => h (by simp [hc])
      simp [removeFirstCb, hne]
      exact ih (fun hc => h (by simp [hc]))

theorem removeFirstCb_append_singleton (cbs : List CbDef) (d : CbDef) (h : d ∉ cbs) :
    removeFirstCb (cbs ++ [d]) d = cbs := by
  induction cbs with
  | nil => simp [removeFirstCb]
  | cons c cs ih =>
      have hne : c ≠ d := fun hc => h (by simp [hc])
      simp [removeFirstCb, hne]
      exact ih (fun hc => h (by simp [hc]))

theorem count_removeFirstCb_self (cbs : List CbDef) (d : CbDef) (h : d ∈ cbs) :
    (removeFirstCb cbs d).count d = cbs.count d - 1 := by
  induction cbs with
  | nil => simp at h
  | cons c cs ih =>
      by_cases hc : c = d
      · simp [removeFirstCb, hc, List.count_cons_self]
      · have hmem : d ∈ cs := by
          rcases List.mem_cons.1 h with h1 | h1
          · exact absurd h1.symm hc
          · exact h1
        have hne : ¬(c == d) := by simp [hc]
        simp [removeFirstCb, hc, List.count_cons, hne, ih hmem]

theorem count_removeFirstCb_other (cbs : List CbDef) (d x : CbDef) (hx : x ≠ d) :
    (removeFirstCb cbs d).count x = cbs.count x := by
  induction cbs with
  | nil => rfl
  | cons c cs ih =>
      by_cases hc : c = d
      · have hxc : x ≠ c := fun hxc => hx (hxc.trans hc)
        simp only [removeFirstCb, if_pos hc]
        rw [List.count_cons_of_ne hxc]
      · simp [removeFirstCb, hc, List.count_cons, ih]

theorem not_mem_removeFirstCb (cbs : List CbDef) (d : CbDef) (hinv : cbs.count d ≤ 1) :
    d ∉ removeFirstCb cbs d := by
  by_cases hmem : d ∈ cbs
  · have h1 : (removeFirstCb cbs d).count d = cbs.count d - 1 := count_removeFirstCb_self cbs d hmem
    have h2 : 1 ≤ cbs.count d := List.count_pos_iff.2 hmem
    intro hc
    have := List.count_pos_iff.2 hc
    omega
  · rw [removeFirstCb_not_mem cbs d hmem]
    exact hmem

theorem mem_split_removeFirstCb (cbs : List CbDef) (d : CbDef) (h : d ∈ cbs) :
    ∃ l1 l2, cbs = l1 ++ d :: l2 ∧ d ∉ l1 ∧ removeFirstCb cbs d = l1 ++ l2 := by
  induction cbs with
  | nil => simp at h
  | cons c cs ih =>
      by_cases hc : c = d
      · exact ⟨[], cs, by simp [hc], by simp, by simp [removeFirstCb, hc]⟩
      · have hmem : d ∈ cs := by
          rcases List.mem_cons.1 h with h1 | h1
          · exact absurd h1.symm hc
          · exact h1
        obtain ⟨l1, l2, he, hn, hr⟩ := ih hmem
        exact ⟨c :: l1, l2, by simp [he], by simp [hn]; exact fun hcd => hc hcd.symm,
          by simp [removeFirstCb, hc, hr]⟩

/-- C8 counterexample: registering an already registered triple and then
unregistering it does not leave the callback list as it was — the list
held the triple before and is empty afterwards. -/
theorem c8_register_unregister_counterexample :
    unregisterCallback (registerCallback [⟨CbKind.ref, some ("X"), 0⟩] ⟨CbKind.ref, some ("X"), 0⟩)
        ⟨CbKind.ref, some ("X"), 0⟩ = [] ∧
    ([⟨CbKind.ref, some ("X"), 0⟩] : List CbDef) ≠ [] := by
  constructor
  · rfl
  · decide

/-- C8 amended: re-registration removes the earlier copy and appends the
new one at the end, preserving the at-most-one-copy invariant;
register followed by unregister on the same triple is a no-op exactly
when the triple was not previously registered, and removes the
pre-existing binding when it was; unregister removes exactly the first
matching binding when one exists. -/
theorem c8_registry_algebra (cbs : List CbDef) (d : CbDef) :
    registerCallback cbs d = removeFirstCb cbs d ++ [d] ∧
    ((∀ x : CbDef, cbs.count x ≤ 1) → ∀ x : CbDef, (registerCallback cbs d).count x ≤ 1) ∧
    (d ∉ cbs → unregisterCallback (registerCallback cbs d) d = cbs) ∧
    (cbs.count d ≤ 1 → d ∈ cbs →
      unregisterCallback (registerCallback cbs d) d = removeFirstCb cbs d) ∧
    (d ∈ cbs → ∃ l1 l2, cbs = l1 ++ d :: l2 ∧ d ∉ l1 ∧ unregisterCallback cbs d = l1 ++ l2) := by
  refine ⟨rfl, ?_, ?_, ?_, ?_⟩
  · intro hinv x
    by_cases hx : x = d
    · subst hx
      by_cases hmem : x ∈ cbs
      · have h1 := count_removeFirstCb_self cbs x hmem
        have h2 := hinv x
        simp [registerCallback, List.count_append, h1]
        omega
      · have h0 : cbs.count x = 0 := List.count_eq_zero.2 hmem
        simp only [registerCallback, List.count_append, removeFirstCb_not_mem cbs x hmem, h0]
        simp
    · have h1 := count_removeFirstCb_other cbs d x hx
      have h2 := hinv x
      have h3 : List.count x [d] = 0 := List.count_eq_zero.2 (by simpa using hx)
      simp only [registerCallback, List.count_append, h1, h3]
      omega
  · intro hmem
    simp only [unregisterCallback, registerCallback]
    rw [removeFirstCb_not_mem cbs d hmem]
    exact removeFirstCb_append_singleton cbs d hmem
  · intro hinv hmem
    simp only [unregisterCallback, registerCallback]
    exact removeFirstCb_append_singleton (removeFirstCb cbs d) d
      (not_mem_removeFirstCb cbs d hinv)
  · exact mem_split_removeFirstCb cbs d

/-! C2 and C10: binding of events to synchronous outstanding requests,
and the dispatcher's suppression of callbacks for them. -/

theorem processOutstanding_bound (reg : ClassId → Option String) (out : OutstandingMap)
    (e : PEvent) (st : SyncStatus) (hb : alookup out e.actionId = some (some st)) :
    (processOutstandingRequestEvent reg out e).2 = true ∧
    (processOutstandingRequestEvent reg out e).1 =
      ainsert out e.actionId (some ⟨
        (match st.events.get (EKey.kClass e.cls) with
         | some (DVal.listRef r) => st.events.heapAppend r e
         | _ => setBoth reg st.events e.cls (DVal.ev e)),
        st.pending.erase e.cls⟩) := by
  constructor <;> simp [processOutstandingRequestEvent, hb]

/-- C2: an event drained by the dispatcher whose ActionID is that of a
synchronous outstanding request is bound to it: its class is struck
from the pending finalisers; when the slot for its class is a shared
list the event is appended to that list (both the class key and the
name key still reaching the same, extended, list), otherwise the event
is stored under both the class key and the registered-name key; no
name-matched or universal callback fires, and the aggregate list and
completed deque are untouched. -/
theorem c2_synchronous_binding (reg : ClassId → Option String) (cbs : List CbDef)
    (out : OutstandingMap) (aggs : List (Nat × PAggregate)) (e : PEvent) (st : SyncStatus)
    (hb : alookup out e.actionId = some (some st)) :
    (dispatchEvent reg cbs out aggs e).fired = [] ∧
    (dispatchEvent reg cbs out aggs e).aggs = aggs ∧
    (dispatchEvent reg cbs out aggs e).completed = [] ∧
    (∀ r l, st.events.get (EKey.kClass e.cls) = some (DVal.listRef r) →
       st.events.get (EKey.kName (reg e.cls)) = some (DVal.listRef r) →
       st.events.heapGet r = some l →
       ∃ st2 : SyncStatus,
         (dispatchEvent reg cbs out aggs e).out = ainsert out e.actionId (some st2) ∧
         st2.pending = st.pending.erase e.cls ∧
         st2.events.get (EKey.kClass e.cls) = some (DVal.listRef r) ∧
         st2.events.get (EKey.kName (reg e.cls)) = some (DVal.listRef r) ∧
         st2.events.heapGet r = some (l ++ [e])) ∧
    ((∀ r, st.events.get (EKey.kClass e.cls) ≠ some (DVal.listRef r)) →
       ∃ st2 : SyncStatus,
         (dispatchEvent reg cbs out aggs e).out = ainsert out e.actionId (some st2) ∧
         st2.pending = st.pending.erase e.cls ∧
         st2.events.get (EKey.kClass e.cls) = some (DVal.ev e) ∧
         st2.events.get (EKey.kName (reg e.cls)) = some (DVal.ev e)) := by
  obtain ⟨hbit, hout⟩ := processOutstanding_bound reg out e st hb
  have hdisp : dispatchEvent reg cbs out aggs e =
      ⟨(processOutstandingRequestEvent reg out e).1, aggs, [], []⟩ := by
    simp [dispatchEvent, hbit]
  refine ⟨by simp [hdisp], by simp [hdisp], by simp [hdisp], ?_, ?_⟩
  · intro r l hcl hnm hheap
    refine ⟨⟨st.events.heapAppend r e, st.pending.erase e.cls⟩, ?_, rfl, ?_, ?_, ?_⟩
    · rw [hdisp]
      simp only [hout, hcl]
    · simpa [EStore.heapAppend, EStore.get] using hcl
    · simpa [EStore.heapAppend, EStore.get] using hnm
    · rw [heapGet_heapAppend]
      simp [hheap]
  · intro hnl
    refine ⟨⟨setBoth reg st.events e.cls (DVal.ev e), st.pending.erase e.cls⟩, ?_, rfl, ?_, ?_⟩
    · rw [hdisp]
      rw [hout]
      rcases hv : st.events.get (EKey.kClass e.cls) with _ | v
      · rfl
      · rcases v with _ | e' | r
        · rfl
        · rfl
        · exact absurd hv (hnl r)
    · simp [get_setBoth_kClass]
    · simp [get_setBoth_kName]

/-- C2 witnessed on a synchronous request declaring the list class 1 and
finaliser class 2, with an event of class 1 carrying the outstanding
token. -/
theorem c2_synchronous_binding_witness :
    (dispatchEvent (fun c => if c = 1 then some ("Foo") else if c = 2 then some ("Done") else none)
        [⟨CbKind.univ, none, 7⟩]
        [(some ("T"), some ⟨initSyncEvents
            (fun c => if c = 1 then some ("Foo") else if c = 2 then some ("Done") else none)
            [] [1] [2], [2]⟩)]
        [] ⟨1, [(keyEvent, "Foo"), (keyActionId, "T")]⟩).fired = [] :=
  (c2_synchronous_binding
    (fun c => if c = 1 then some ("Foo") else if c = 2 then some ("Done") else none)
    [⟨CbKind.univ, none, 7⟩]
    [(some ("T"), some ⟨initSyncEvents
        (fun c => if c = 1 then some ("Foo") else if c = 2 then some ("Done") else none)
        [] [1] [2], [2]⟩)]
    [] ⟨1, [(keyEvent, "Foo"), (keyActionId, "T")]⟩
    ⟨initSyncEvents
        (fun c => if c = 1 then some ("Foo") else if c = 2 then some ("Done") else none)
        [] [1] [2], [2]⟩
    (by decide)).1

/-- C10: while a synchronous request is outstanding, an event carrying
its token whose class is not among the declared classes (its slot is
absent from the pre-allocated events map, and it is no pending
finaliser) is still absorbed: a fresh entry holding the event is
created under both the class object and its registered name, the
pending finalisers are unchanged, no callback fires, and the aggregate
machinery is untouched — the event is swallowed rather than dispatched
or orphaned. -/
theorem c10_undeclared_class_absorbed (reg : ClassId → Option String) (cbs : List CbDef)
    (out : OutstandingMap) (aggs : List (Nat × PAggregate)) (e : PEvent) (st : SyncStatus)
    (hb : alookup out e.actionId = some (some st))
    (hmiss : st.events.get (EKey.kClass e.cls) = none)
    (hpend : e.cls ∉ st.pending) :
    (dispatchEvent reg cbs out aggs e).fired = [] ∧
    (dispatchEvent reg cbs out aggs e).aggs = aggs ∧
    (dispatchEvent reg cbs out aggs e).completed = [] ∧
    (dispatchEvent reg cbs out aggs e).out = ainsert out e.actionId (some
      ⟨setBoth reg st.events e.cls (DVal.ev e), st.pending⟩) ∧
    (setBoth reg st.events e.cls (DVal.ev e)).get (EKey.kClass e.cls) = some (DVal.ev e) ∧
    (setBoth reg st.events e.cls (DVal.ev e)).get (EKey.kName (reg e.cls)) = some (DVal.ev e) := by
  obtain ⟨hbit, hout⟩ := processOutstanding_bound reg out e st hb
  have hdisp : dispatchEvent reg cbs out aggs e =
      ⟨(processOutstandingRequestEvent reg out e).1, aggs, [], []⟩ := by
    simp [dispatchEvent, hbit]
  have herase : st.pending.erase e.cls = st.pending := List.erase_of_not_mem hpend
  refine ⟨by simp [hdisp], by simp [hdisp], by simp [hdisp], ?_, ?_, ?_⟩
  · rw [hdisp]
    rw [hout, hmiss, herase]
  · simp [get_setBoth_kClass]
  · simp [get_setBoth_kName]

/-- C10 witnessed on a synchronous request declaring only classes 1 and
2, absorbing a stray same-token event of the registered class 9. -/
theorem c10_undeclared_class_absorbed_witness :
    (dispatchEvent
        (fun c => if c = 1 then some ("Foo") else if c = 2 then some ("Done")
                  else if c = 9 then some ("Stray") else none)
        [⟨CbKind.univ, none, 7⟩]
        [(some ("T"), some ⟨initSyncEvents
            (fun c => if c = 1 then some ("Foo") else if c = 2 then some ("Done")
                      else if c = 9 then some ("Stray") else none)
            [] [1] [2], [2]⟩)]
        [] ⟨9, [(keyEvent, "Stray"), (keyActionId, "T")]⟩).fired = [] :=
  (c10_undeclared_class_absorbed
    (fun c => if c = 1 then some ("Foo") else if c = 2 then some ("Done")
              else if c = 9 then some ("Stray") else none)
    [⟨CbKind.univ, none, 7⟩]
    [(some ("T"), some ⟨initSyncEvents
        (fun c => if c = 1 then some ("Foo") else if c = 2 then some ("Done")
                  else if c = 9 then some ("Stray") else none)
        [] [1] [2], [2]⟩)]
    [] ⟨9, [(keyEvent, "Stray"), (keyActionId, "T")]⟩
    ⟨initSyncEvents
        (fun c => if c = 1 then some ("Foo") else if c = 2 then some ("Done")
                  else if c = 9 then some ("Stray") else none)
        [] [1] [2], [2]⟩
    (by decide) (by decide) (by decide)).1

/-! C3: dispatcher treatment of aggregate-consumed events. -/

/-- C3 counterexample: with no synchronous request outstanding, an event
that a pending aggregate consumes as a member (the aggregate's shared
list for class 1 receives the event) is nevertheless passed to the
universal callback — the claim instead demands that a consumed event
not reach the name-matched or universal callbacks. -/
theorem c3_dispatcher_suppression_counterexample :
    (dispatchEvent (fun c => if c = 1 then some ("Foo") else none) [⟨CbKind.univ, none, 7⟩] []
        [(100, mkAggregate (fun c => if c = 1 then some ("Foo") else none) [1] [] (some ("T")))]
        ⟨1, [(keyEvent, "Foo"), (keyActionId, "T")]⟩).fired = [7] ∧
    ((dispatchEvent (fun c => if c = 1 then some ("Foo") else none) [⟨CbKind.univ, none, 7⟩] []
        [(100, mkAggregate (fun c => if c = 1 then some ("Foo") else none) [1] [] (some ("T")))]
        ⟨1, [(keyEvent, "Foo"), (keyActionId, "T")]⟩).aggs.map
      (fun p => p.2.store.heapGet 0)) =
      [some [⟨1, [(keyEvent, "Foo"), (keyActionId, "T")]⟩]] := by
  constructor
  · rfl
  · rfl

/-- C3 amended: in each dispatcher cycle, a drained event bound to a
synchronous outstanding request has no callbacks invoked; every other
(truthy) drained event has the matching callbacks (exact-name plus
universal, in registration order) each invoked exactly once, whether or
not a pending aggregate consumed it as a member or finaliser — the set
of callbacks invoked does not depend on the aggregate list at all. -/
theorem c3_dispatcher_callbacks_amended (reg : ClassId → Option String) (cbs : List CbDef)
    (out : OutstandingMap) (aggs : List (Nat × PAggregate)) (e : PEvent)
    (hne : e.headers ≠ []) :
    ((processOutstandingRequestEvent reg out e).2 = true →
      (dispatchEvent reg cbs out aggs e).fired = []) ∧
    ((processOutstandingRequestEvent reg out e).2 = false →
      (dispatchEvent reg cbs out aggs e).fired = matchingCallbacks cbs e.name ∧
      (dispatchEvent reg cbs out aggs e).fired = (dispatchEvent reg cbs out [] e).fired) := by
  have hemp : e.headers.isEmpty = false := by
    simpa [List.isEmpty_iff] using hne
  constructor
  · intro hb
    simp [dispatchEvent, hb]
  · intro hb
    constructor
    · simp [dispatchEvent, hb, hemp]
    · simp [dispatchEvent, hb, hemp]

/-- C3 amended, witnessed on the counterexample configuration: the
universal callback fires for the aggregate-consumed event. -/
theorem c3_dispatcher_callbacks_amended_witness :
    (dispatchEvent (fun c => if c = 1 then some ("Foo") else none) [⟨CbKind.univ, none, 7⟩] []
        [(100, mkAggregate (fun c => if c = 1 then some ("Foo") else none) [1] [] (some ("T")))]
        ⟨1, [(keyEvent, "Foo"), (keyActionId, "T")]⟩).fired =
      matchingCallbacks [⟨CbKind.univ, none, 7⟩]
        (PEvent.name ⟨1, [(keyEvent, "Foo"), (keyActionId, "T")]⟩) :=
  ((c3_dispatcher_callbacks_amended (fun c => if c = 1 then some ("Foo") else none)
      [⟨CbKind.univ, none, 7⟩] []
      [(100, mkAggregate (fun c => if c = 1 then some ("Foo") else none) [1] [] (some ("T")))]
      ⟨1, [(keyEvent, "Foo"), (keyActionId, "T")]⟩ (by decide)).2 (by decide)).1

/-! C4: the aggregate evaluation contract. -/

/-- C4: evaluate_event returns None exactly when the event's class is
neither a declared member nor a declared finaliser; a member-class
event always yields False, with the event appended to the per-class
shared list (visible through both the class key and the name key)
exactly when the aggregate's own ActionID matches; a finaliser-class
event yields True exactly when the ActionIDs match and, after the
event's class is struck from the pending set, no finaliser remains, the
finaliser being stored under both keys on a match; and an aggregate
whose ActionID differs from the event's never changes state. -/
theorem c4_aggregate_evaluation (reg : ClassId → Option String) (a : PAggregate) (e : PEvent) :
    ((PAggregate.evaluateEvent reg a e).1 = none ↔
      (e.cls ∉ a.members ∧ e.cls ∉ a.finalisers)) ∧
    (e.cls ∈ a.members →
      (PAggregate.evaluateEvent reg a e).1 = some false ∧
      (a.actionId ≠ e.actionId → (PAggregate.evaluateEvent reg a e).2 = a) ∧
      (a.actionId = e.actionId → ∀ r l,
         a.store.get (EKey.kClass e.cls) = some (DVal.listRef r) →
         a.store.get (EKey.kName (reg e.cls)) = some (DVal.listRef r) →
         a.store.heapGet r = some l →
         (PAggregate.evaluateEvent reg a e).2.store.get (EKey.kClass e.cls) =
           some (DVal.listRef r) ∧
         (PAggregate.evaluateEvent reg a e).2.store.get (EKey.kName (reg e.cls)) =
           some (DVal.listRef r) ∧
         (PAggregate.evaluateEvent reg a e).2.store.heapGet r = some (l ++ [e]))) ∧
    (e.cls ∉ a.members → e.cls ∈ a.finalisers →
      ((PAggregate.evaluateEvent reg a e).1 = some true ↔
        (a.actionId = e.actionId ∧ a.pending.erase e.cls = [])) ∧
      (a.actionId = e.actionId →
        (PAggregate.evaluateEvent reg a e).2.pending = a.pending.erase e.cls ∧
        (PAggregate.evaluateEvent reg a e).2.store.get (EKey.kClass e.cls) =
          some (DVal.ev e) ∧
        (PAggregate.evaluateEvent reg a e).2.store.get (EKey.kName (reg e.cls)) =
          some (DVal.ev e)) ∧
      (a.actionId ≠ e.actionId →
        (PAggregate.evaluateEvent reg a e).1 = some false ∧
        (PAggregate.evaluateEvent reg a e).2 = a)) := by
  refine ⟨?_, ?_, ?_⟩
  · by_cases hm : e.cls ∈ a.members
    · simp [PAggregate.evaluateEvent, hm]
    · by_cases hf : e.cls ∈ a.finalisers
      · simp [PAggregate.evaluateEvent, hm, hf, PAggregate.finalise]
      · simp [PAggregate.evaluateEvent, hm, hf]
  · intro hm
    refine ⟨by simp [PAggregate.evaluateEvent, hm], ?_, ?_⟩
    · intro hid
      simp [PAggregate.evaluateEvent, hm, PAggregate.aggregateEvent, hid]
    · intro hid r l hcl hnm hheap
      have hstep : (PAggregate.evaluateEvent reg a e).2.store = a.store.heapAppend r e := by
        simp [PAggregate.evaluateEvent, hm, PAggregate.aggregateEvent, hid, hcl]
      rw [hstep]
      refine ⟨?_, ?_, ?_⟩
      · simpa [EStore.heapAppend, EStore.get] using hcl
      · simpa [EStore.heapAppend, EStore.get] using hnm
      · rw [heapGet_heapAppend]
        simp [hheap]
  · intro hm hf
    refine ⟨?_, ?_, ?_⟩
    · by_cases hid : a.actionId = e.actionId
      · simp [PAggregate.evaluateEvent, hm, hf, PAggregate.finalise, hid,
          List.isEmpty_iff]
      · simp [PAggregate.evaluateEvent, hm, hf, PAggregate.finalise, hid]
    · intro hid
      refine ⟨?_, ?_, ?_⟩
      · simp [PAggregate.evaluateEvent, hm, hf, PAggregate.finalise, hid]
      · simp [PAggregate.evaluateEvent, hm, hf, PAggregate.finalise, hid, get_setBoth_kClass]
      · simp [PAggregate.evaluateEvent, hm, hf, PAggregate.finalise, hid, get_setBoth_kName]
    · intro hid
      constructor <;> simp [PAggregate.evaluateEvent, hm, hf, PAggregate.finalise, hid]

/-- C4 witnessed on an aggregate for member class 1 and finaliser class
2, evaluating a matching member event: the result is False. -/
theorem c4_aggregate_evaluation_witness :
    (PAggregate.evaluateEvent (fun c => if c = 1 then some ("Foo") else some ("Done"))
        (mkAggregate (fun c => if c = 1 then some ("Foo") else some ("Done")) [1] [2] (some ("T")))
        ⟨1, [(keyEvent, "Foo"), (keyActionId, "T")]⟩).1 = some false :=
  ((c4_aggregate_evaluation (fun c => if c = 1 then some ("Foo") else some ("Done"))
      (mkAggregate (fun c => if c = 1 then some ("Foo") else some ("Done")) [1] [2] (some ("T")))
      ⟨1, [(keyEvent, "Foo"), (keyActionId, "T")]⟩).2.1 (by decide)).1

/-! C9: the GI engine's treatment of response code 0. -/

/-- C9: a response line whose leading decimal code is 0, or that carries
no parseable code at all, makes the result reader return with no
response and raise none of the typed command errors; the typed hangup
reaches the caller through the asynchronous SIGHUP signal path — when
the script-backed engine's hangup flag has been set, the next execute
raises the typed SIGHUP hangup before touching the stream. -/
theorem c9_gi_code_zero_hangup (l : Chars) (rest : List Chars) (ch : Bool)
    (h : parseCodeLine l = none ∨ ∃ raw, parseCodeLine l = some (0, raw)) :
    getResult (l :: rest) ch = GIResult.respNone ∧
    (∀ lines : List Chars, executeAGI true lines ch = GIResult.errSighupHangup) := by
  constructor
  · rcases h with h | ⟨raw, h⟩
    · simp [getResult, h]
    · simp [getResult, h]
  · intro lines
    simp [executeAGI]

/-- C9 witnessed on the line made of the digit zero, a space, and a
letter, which the code regex parses with code 0. -/
theorem c9_gi_code_zero_hangup_witness :
    getResult [['0', ' ', 'x']] true = GIResult.respNone :=
  (c9_gi_code_zero_hangup ['0', ' ', 'x'] [] true (Or.inr ⟨['x'], by decide⟩)).1

/-- C8 amended, witnessed: register then unregister of a triple not
previously present leaves the one-element registry unchanged. -/
theorem c8_registry_algebra_witness :
    unregisterCallback (registerCallback [⟨CbKind.univ, none, 1⟩] ⟨CbKind.ref, some ("X"), 0⟩)
        ⟨CbKind.ref, some ("X"), 0⟩ = [⟨CbKind.univ, none, 1⟩] :=
  (c8_registry_algebra [⟨CbKind.univ, none, 1⟩] ⟨CbKind.ref, some ("X"), 0⟩).2.2.1 (by decide)

/-! C7: the wire-codec round trip. -/

/-- C7 counterexample: a request with the list-valued header K emitting
the two lines K: a and K: b serialises and parses back to a dict whose
K entry holds only the last value b, not the two-element list, so
Parse(Serialise(m)) differs from m although no header embeds a CRLF. -/
theorem c7_roundtrip_counterexample :
    parseWire (serialiseItems
        (buildRequest ⟨['A'], [(['K'], HVal.many [['a'], ['b']])], some ['X']⟩
          (some ['X']) ['g'] []).1) =
      some ([(actionKeyChars, ['A']), (['K'], ['b']), (actionIdKeyChars, ['X'])], []) ∧
    alookup (requestDict ⟨['A'], [(['K'], HVal.many [['a'], ['b']])], some ['X']⟩) ['K'] =
      some (HVal.many [['a'], ['b']]) ∧
    HVal.many [['a'], ['b']] ≠ HVal.one ['b'] := by
  refine ⟨by rfl, by rfl, by decide⟩

theorem splitLinesAux_append (p : Chars) (hnp : '\n' ∉ p) :
    ∀ (acc rest : Chars),
      splitLinesAux (p ++ '\n' :: rest) acc = (acc.reverse ++ p ++ ['\n']) :: splitLinesAux rest [] := by
  induction p with
  | nil => intro acc rest; simp [splitLinesAux]
  | cons c p' ih =>
      intro acc rest
      have hc : c ≠ '\n' := fun hc => hnp (by simp [hc])
      have hp' : '\n' ∉ p' := fun hp => hnp (by simp [hp])
      simp only [List.cons_append, splitLinesAux, if_neg hc, List.append_eq]
      rw [ih hp' (c :: acc) rest]
      simp

theorem headerLine_eq_concat (k v : Chars) :
    headerLine k v = (k ++ [':', ' '] ++ v ++ ['\r']) ++ ['\n'] := by
  simp [headerLine, eolChars]

theorem splitLines_serialiseItems (items : List (Chars × Chars))
    (h : ∀ kv ∈ items, '\n' ∉ kv.1 ∧ '\n' ∉ kv.2) :
    splitLines (serialiseItems items) = items.map (fun kv => headerLine kv.1 kv.2) ++ [eolChars] := by
  induction items with
  | nil =>
      show splitLinesAux eolChars [] = [eolChars]
      have : eolChars = ['\r'] ++ '\n' :: [] := by decide
      rw [this, splitLinesAux_append ['\r'] (by decide) [] []]
      simp [splitLinesAux]
  | cons kv rest ih =>
      have hk : '\n' ∉ kv.1 := (h kv (by simp)).1
      have hv : '\n' ∉ kv.2 := (h kv (by simp)).2
      have hser : serialiseItems (kv :: rest) =
          (kv.1 ++ [':', ' '] ++ kv.2 ++ ['\r']) ++ '\n' :: serialiseItems rest := by
        simp [serialiseItems, headerLine, eolChars]
      have hnp : '\n' ∉ kv.1 ++ [':', ' '] ++ kv.2 ++ ['\r'] := by
        simp [hk, hv]
      show splitLinesAux (serialiseItems (kv :: rest)) [] = _
      rw [hser, splitLinesAux_append _ hnp [] _]
      have ihr := ih (fun kv' hkv' => h kv' (by simp [hkv']))
      show _ :: splitLines (serialiseItems rest) = _
      rw [ihr]
      simp [headerLine_eq_concat]

theorem headerLine_length (k v : Chars) : (headerLine k v).length = k.length + v.length + 4 := by
  simp [headerLine, eolChars]
  omega

theorem headerLine_ne_eol (k v : Chars) : headerLine k v ≠ eolChars := by
  intro hc
  have := congrArg List.length hc
  rw [headerLine_length] at this
  simp [eolChars] at this

theorem readMsg_collect (ls : List Chars)
    (h : ∀ l ∈ ls, l ≠ eolChars ∧ isFollowsLine l = false) :
    ∀ acc : List Chars, acc ++ ls ≠ [] →
      readMsg (ls ++ [eolChars]) acc false = some (acc ++ ls) := by
  induction ls with
  | nil =>
      intro acc hne
      simp only [List.append_nil] at hne
      simp [readMsg, List.isEmpty_iff, hne]
  | cons l rest ih =>
      intro acc hne
      have hl : l ≠ eolChars := (h l (by simp)).1
      have hf : isFollowsLine l = false := (h l (by simp)).2
      have hstep := ih (fun l' hl' => h l' (by simp [hl'])) (acc ++ [l]) (by simp)
      simp only [List.cons_append, readMsg, List.append_eq]
      rw [if_neg (by simp [hl]), if_neg (by simp), hf]
      simp only [Bool.or_false]
      rw [hstep]
      simp

theorem headerLine_reverse (k v : Chars) :
    (headerLine k v).reverse = '\n' :: '\r' :: (v.reverse ++ (' ' :: ':' :: k.reverse)) := by
  simp [headerLine, eolChars]

theorem endsWith_headerLine_eol (k v : Chars) :
    endsWithChars (headerLine k v) eolChars = true := by
  simp [endsWithChars, headerLine_reverse, eolChars]

theorem endsWith_headerLine_fake1 (k v : Chars) (hv : '\n' ∉ v) :
    endsWithChars (headerLine k v) eolFake1 = false := by
  simp only [endsWithChars, headerLine_reverse, eolFake1, decide_eq_false_iff_not]
  rcases v.eq_nil_or_concat with hnil | ⟨v', c, hcat⟩
  · subst hnil
    simp [List.take]
  · subst hcat
    have hc : c ≠ '\n' := fun hc => hv (by simp [hc])
    simp [List.take, hc]

theorem endsWith_headerLine_fake2 (k v : Chars) (hv : '\r' ∉ v) :
    endsWithChars (headerLine k v) eolFake2 = false := by
  simp only [endsWithChars, headerLine_reverse, eolFake2, decide_eq_false_iff_not]
  rcases v.eq_nil_or_concat with hnil | ⟨v', c, hcat⟩
  · subst hnil
    simp [List.take]
  · subst hcat
    have hc : c ≠ '\r' := fun hc => hv (by simp [hc])
    simp [List.take, hc]

theorem headerLine_contains_colon (k v : Chars) :
    (headerLine k v).contains ':' = true := by
  simp [headerLine, List.contains]

theorem splitColon_append (k rest : Chars) (hk : ':' ∉ k) :
    splitColon (k ++ ':' :: rest) = (k, rest) := by
  induction k with
  | nil => simp [splitColon]
  | cons c k' ih =>
      have hc : c ≠ ':' := fun hc => hk (by simp [hc])
      have hk' : ':' ∉ k' := fun hm => hk (by simp [hm])
      simp [splitColon, hc, ih hk']

theorem pyStrip_of_stripped (k : Chars) (h1 : k.dropWhile isPyWs = k)
    (h2 : k.reverse.dropWhile isPyWs = k.reverse) : pyStrip k = k := by
  simp [pyStrip, h1, h2]

theorem pyStrip_value_slice (v : Chars) (hv : goodVal v) :
    pyStrip (' ' :: (v ++ eolChars)) = v := by
  obtain ⟨hn, hr, h1, h2⟩ := hv
  have hws : isPyWs ' ' = true := by decide
  show ((((' ' :: (v ++ eolChars)).dropWhile isPyWs).reverse.dropWhile isPyWs)).reverse = v
  rw [List.dropWhile_cons]
  simp only [hws, if_true]
  cases v with
  | nil => decide
  | cons c v' =>
      have hcw : isPyWs c = false := by
        by_contra hcon
        simp only [Bool.not_eq_false] at hcon
        rw [List.dropWhile_cons] at h1
        simp only [hcon, if_true] at h1
        have hle := (List.dropWhile_sublist (l := v') isPyWs).length_le
        have := congrArg List.length h1
        simp at this
        omega
      have hdw : ((c :: v') ++ eolChars).dropWhile isPyWs = (c :: v') ++ eolChars := by
        rw [List.cons_append, List.dropWhile_cons]
        simp [hcw]
      rw [hdw]
      have hrev : ((c :: v') ++ eolChars).reverse = '\n' :: '\r' :: (c :: v').reverse := by
        simp [eolChars]
      rw [hrev]
      rw [List.dropWhile_cons]
      simp only [show isPyWs '\n' = true from by decide, if_true]
      rw [List.dropWhile_cons]
      simp only [show isPyWs '\r' = true from by decide, if_true]
      rw [h2]
      simp

theorem notFollows_of_head_ne (c : Char) (hc : c ≠ 'R') (cs : Chars) :
    isFollowsLine (c :: cs) = false := by
  have hsw : startsWithChars (c :: cs) respColonChars = false := by
    simp [startsWithChars, respColonChars, List.take, hc]
  simp [isFollowsLine, hsw]

theorem parseMsg_headerLines :
    ∀ (items acc : List (Chars × Chars)),
      (∀ kv ∈ items, goodKey kv.1 ∧ goodVal kv.2) →
      (∀ kv ∈ items, kv.1 ∉ acc.map Prod.fst) →
      (items.map Prod.fst).Nodup →
      parseMsg (items.map (fun kv => headerLine kv.1 kv.2)) acc = (acc ++ items, []) := by
  intro items
  induction items with
  | nil =>
      intro acc _ _ _
      simp [parseMsg]
  | cons kv rest ih =>
      intro acc hgood hfresh hnodup
      obtain ⟨hgk, hgv⟩ := hgood kv (by simp)
      obtain ⟨hkn, hkc, hk1, hk2⟩ := hgk
      obtain ⟨hvn, hvr, hv1, hv2⟩ := hgv
      have hcond1 := endsWith_headerLine_fake1 kv.1 kv.2 hvn
      have hcond2 := endsWith_headerLine_fake2 kv.1 kv.2 hvr
      have hcond3 := endsWith_headerLine_eol kv.1 kv.2
      have hcond4 := headerLine_contains_colon kv.1 kv.2
      have hsplit : splitColon (headerLine kv.1 kv.2) = (kv.1, ' ' :: (kv.2 ++ eolChars)) := by
        have hform : headerLine kv.1 kv.2 = kv.1 ++ ':' :: (' ' :: (kv.2 ++ eolChars)) := by
          simp [headerLine]
        rw [hform, splitColon_append kv.1 _ hkc]
      have hinsert : ainsert acc kv.1 kv.2 = acc ++ [(kv.1, kv.2)] := by
        refine ainsert_fresh acc kv.1 kv.2 ?_
        intro kv' hkv' hceq
        exact (hfresh kv (by simp)) (by rw [← hceq]; exact List.mem_map_of_mem Prod.fst hkv')
      have hfresh2 : ∀ kv' ∈ rest, kv'.1 ∉ (acc ++ [(kv.1, kv.2)]).map Prod.fst := by
        intro kv' hkv'
        simp only [List.map_append, List.map_cons, List.map_nil, List.mem_append,
          List.mem_singleton]
        intro hc
        have hn := hnodup
        rw [List.map_cons] at hn
        rcases hc with hc | hc
        · exact (hfresh kv' (by simp [hkv'])) hc
        · exact (List.nodup_cons.1 hn).1 (hc ▸ List.mem_map_of_mem Prod.fst hkv')
      have hnodup2 : (rest.map Prod.fst).Nodup := by
        have hn := hnodup
        rw [List.map_cons] at hn
        exact (List.nodup_cons.1 hn).2
      simp only [List.map_cons, parseMsg, hcond1, hcond2, hcond3, hcond4, Bool.false_or,
        Bool.not_true, Bool.or_false, Bool.or_self, if_false]
      rw [hsplit]
      simp only []
      rw [pyStrip_of_stripped kv.1 hk1 hk2, pyStrip_value_slice kv.2 ⟨hvn, hvr, hv1, hv2⟩]
      rw [hinsert]
      rw [ih (acc ++ [(kv.1, kv.2)]) (fun kv' hkv' => hgood kv' (by simp [hkv'])) hfresh2 hnodup2]
      simp

theorem expandHeaders_one (hs : List (Chars × Chars)) :
    expandHeaders (hs.map (fun kv => (kv.1, HVal.one kv.2))) = hs := by
  induction hs with
  | nil => rfl
  | cons kv rest ih =>
      simp only [List.map_cons, expandHeaders] at ih ⊢
      simp only [List.flatten_cons]
      rw [ih]
      rfl

theorem notFollows_action_line (v : Chars) :
    isFollowsLine (headerLine actionKeyChars v) = false := by
  have hform : headerLine actionKeyChars v =
      'A' :: ('c' :: 't' :: 'i' :: 'o' :: 'n' :: ([':', ' '] ++ v ++ eolChars)) := by
    simp [headerLine, actionKeyChars]
  rw [hform]
  exact notFollows_of_head_ne 'A' (by decide) _

theorem notFollows_actionId_line (v : Chars) :
    isFollowsLine (headerLine actionIdKeyChars v) = false := by
  have hform : headerLine actionIdKeyChars v =
      'A' :: ('c' :: 't' :: 'i' :: 'o' :: 'n' :: 'I' :: 'D' :: ([':', ' '] ++ v ++ eolChars)) := by
    simp [headerLine, actionIdKeyChars]
  rw [hform]
  exact notFollows_of_head_ne 'A' (by decide) _

/-- C7 amended: the round trip holds for a message with single-valued
headers whose names contain no colon and whose names and values embed
no CR or LF and no surrounding whitespace, provided the request carries
an ActionID header and is serialised with a truthy caller token (so the
stored ActionID is emitted), no ordinary header line matches the
Follows indicator, and header names are pairwise distinct and distinct
from the Action and ActionID names: parsing the serialised wire record
returns exactly the message's header dict — the Action entry first,
the ordinary headers, and the ActionID entry — with no data lines. -/
theorem c7_wire_roundtrip_amended (a y t gen : Chars) (hs : List (Chars × Chars))
    (ht : t ≠ [])
    (ha : goodVal a)
    (hy : goodVal y)
    (hgood : ∀ kv ∈ hs, goodKey kv.1 ∧ goodVal kv.2)
    (hnf : ∀ kv ∈ hs, isFollowsLine (headerLine kv.1 kv.2) = false)
    (hdist : (hs.map Prod.fst).Nodup)
    (hspec : ∀ kv ∈ hs, kv.1 ≠ actionKeyChars ∧ kv.1 ≠ actionIdKeyChars) :
    parseWire (serialiseItems
        (buildRequest ⟨a, hs.map (fun kv => (kv.1, HVal.one kv.2)), some y⟩ (some t) gen []).1) =
      some ((actionKeyChars, a) :: (hs ++ [(actionIdKeyChars, y)]), []) ∧
    (buildRequest ⟨a, hs.map (fun kv => (kv.1, HVal.one kv.2)), some y⟩ (some t) gen []).2 =
      some y := by
  have htr : aidTruthy (some t) = true := by
    simp [aidTruthy, List.isEmpty_iff, ht]
  have hbuild : buildRequest ⟨a, hs.map (fun kv => (kv.1, HVal.one kv.2)), some y⟩
      (some t) gen [] =
      ((actionKeyChars, a) :: (hs ++ [(actionIdKeyChars, y)]), some y) := by
    simp [buildRequest, htr, expandHeaders_one]
  have hitems : ∀ kv ∈ (actionKeyChars, a) :: (hs ++ [(actionIdKeyChars, y)]),
      goodKey kv.1 ∧ goodVal kv.2 := by
    intro kv hkv
    rcases List.mem_cons.1 hkv with hkv | hkv
    · rw [hkv]
      exact ⟨(by decide : goodKey actionKeyChars), ha⟩
    · rcases List.mem_append.1 hkv with hkv | hkv
      · exact hgood kv hkv
      · rw [List.mem_singleton.1 hkv]
        exact ⟨(by decide : goodKey actionIdKeyChars), hy⟩
  have hnl : ∀ kv ∈ (actionKeyChars, a) :: (hs ++ [(actionIdKeyChars, y)]),
      '\n' ∉ kv.1 ∧ '\n' ∉ kv.2 := by
    intro kv hkv
    obtain ⟨⟨hk, _, _, _⟩, ⟨hv, _, _, _⟩⟩ := hitems kv hkv
    exact ⟨hk, hv⟩
  have hlines : ∀ l ∈ ((actionKeyChars, a) :: (hs ++ [(actionIdKeyChars, y)])).map
      (fun kv => headerLine kv.1 kv.2), l ≠ eolChars ∧ isFollowsLine l = false := by
    intro l hl
    obtain ⟨kv, hkv, hkl⟩ := List.mem_map.1 hl
    refine ⟨hkl ▸ headerLine_ne_eol kv.1 kv.2, ?_⟩
    rcases List.mem_cons.1 hkv with hkv | hkv
    · rw [← hkl, hkv]
      exact notFollows_action_line a
    · rcases List.mem_append.1 hkv with hkv | hkv
      · rw [← hkl]
        exact hnf kv hkv
      · rw [← hkl, List.mem_singleton.1 hkv]
        exact notFollows_actionId_line y
  have hnodup : (((actionKeyChars, a) :: (hs ++ [(actionIdKeyChars, y)])).map Prod.fst).Nodup := by
    simp only [List.map_cons, List.map_append, List.map_singleton]
    rw [List.nodup_cons]
    constructor
    · simp only [List.mem_append, List.mem_singleton, List.mem_map]
      rintro (⟨kv, hkv, hk⟩ | hk)
      · exact (hspec kv hkv).1 hk
      · exact absurd hk (by decide)
    · rw [List.nodup_append]
      refine ⟨hdist, by simp, ?_⟩
      intro x hx
      obtain ⟨kv, hkv, hk⟩ := List.mem_map.1 hx
      intro hmem
      simp only [List.map_nil, List.mem_cons, List.not_mem_nil, or_false] at hmem
      exact (hspec kv hkv).2 (hk.trans hmem)
  constructor
  · rw [hbuild]
    show parseWire (serialiseItems ((actionKeyChars, a) :: (hs ++ [(actionIdKeyChars, y)]))) = _
    rw [parseWire, splitLines_serialiseItems _ hnl,
      readMsg_collect _ hlines [] (by simp)]
    rw [Option.map_some']
    simp only [List.nil_append]
    rw [parseMsg_headerLines _ [] hitems (by simp) hnodup]
    simp
  · rw [hbuild]

/-- C7 amended, witnessed on a request with the single header K: v and
the stored ActionID Y, serialised with the caller token X. -/
theorem c7_wire_roundtrip_amended_witness :
    parseWire (serialiseItems
        (buildRequest ⟨['P'], [(['K'], HVal.one ['v'])], some ['Y']⟩ (some ['X']) ['g'] []).1) =
      some ((actionKeyChars, ['P']) :: ([(['K'], ['v'])] ++ [(actionIdKeyChars, ['Y'])]), []) :=
  (c7_wire_roundtrip_amended ['P'] ['Y'] ['X'] ['g'] [(['K'], ['v'])]
    (by decide) (by decide) (by decide) (by decide) (by decide) (by decide) (by decide)).1
